import Mathlib

/-!
Verification of the ExactFit lead-generation core: a shallow embedding of
the deduplication, fuzzy title matching, contact resolution and scoring
logic from `src/agents` and `src/services`, with theorems settling the
frozen behavioural claims.

External HTTP providers (Hunter, PDL, search back-ends) are modelled as
abstract oracles: the embedding is parametric in their responses, exactly
as the agent code is parametric in what the service wrappers return.
Python floats appearing in the source (`0.4`, `0.2`, confidence values)
are modelled as exact rationals, always built with `mkRat` so that every
definition evaluates inside the kernel.
-/

/-! ## Python-style string primitives

The agent code manipulates Python strings with `.lower()`, `.split()`,
`.replace()`, `.strip()`, the substring operator `in`, and truthiness
tests.  We model strings by their character lists (`String.data`).
-/

/-- ASCII lowercase of one character, as Python `str.lower` acts on the
ASCII inputs appearing in this code base. -/
def lcChar (c : Char) : Char :=
  if 'A' ≤ c ∧ c ≤ 'Z' then Char.ofNat (c.toNat + 32) else c

/-- Python `s.lower()` (ASCII fragment). -/
def pyLower (s : String) : String :=
  ⟨s.data.map lcChar⟩

/-- Python's whitespace test used by `str.split()` / `str.strip()`. -/
def isPyWs (c : Char) : Bool :=
  c == ' ' || c == '\t' || c == '\n' || c == '\r'

/-- Split a character list on whitespace runs, dropping empty pieces,
as Python `str.split()` with no argument does.  `acc` holds the current
word reversed. -/
def splitChars : List Char → List Char → List String
  | [], acc => if acc.isEmpty then [] else [String.mk acc.reverse]
  | c :: rest, acc =>
    if isPyWs c then
      if acc.isEmpty then splitChars rest []
      else String.mk acc.reverse :: splitChars rest []
    else splitChars rest (c :: acc)

/-- Python `s.split()`. -/
def pySplit (s : String) : List String :=
  splitChars s.data []

/-- Python `s.strip()` (strip whitespace from both ends). -/
def pyStrip (s : String) : String :=
  ⟨((s.data.dropWhile isPyWs).reverse.dropWhile isPyWs).reverse⟩

/-- Does `p` occur as a contiguous run inside the list?  This is Python's
substring operator `p in l` for strings. -/
def occursIn (p : List Char) : List Char → Bool
  | [] => p.isEmpty
  | c :: rest => p.isPrefixOf (c :: rest) || occursIn p rest

/-- Python `sub in s` for strings. -/
def pyIn (sub s : String) : Bool :=
  occursIn sub.data s.data

/-- Worker for `pyReplace`.  The fuel argument (instantiated with the
length of the scanned list) only makes the recursion structural: each
step consumes at least one character, so the fuel never runs out. -/
def replaceCharsAux (pat rep : List Char) : Nat → List Char → List Char
  | _, [] => []
  | 0, l => l
  | fuel + 1, c :: rest =>
    if !pat.isEmpty && pat.isPrefixOf (c :: rest) then
      rep ++ replaceCharsAux pat rep fuel (rest.drop (pat.length - 1))
    else
      c :: replaceCharsAux pat rep fuel rest

/-- Python `s.replace(pat, rep)`: replace every occurrence, scanning
left to right.  (All patterns used in the source are non-empty.) -/
def pyReplace (s pat rep : String) : String :=
  ⟨replaceCharsAux pat.data rep.data s.data.length s.data⟩

/-- Truthiness of a possibly-absent / possibly-`None` Python string:
`None` and `""` are falsy, any other string truthy. -/
def truthyS : Option String → Bool
  | none => false
  | some s => !(s == "")

example : pyLower "Head of Support" = "head of support" := by decide
example : pySplit "vp  of sales" = ["vp", "of", "sales"] := by decide
example : pyStrip " John  Doe " = "John  Doe" := by decide
example : pyReplace "Uses Apollo (your competitor)" " (your competitor)" "" = "Uses Apollo" := by
  decide

/-! ## Title matching

Three fuzzy title matchers appear in the source:
* `find_best_title_match` in `src/services/hunter.py` (with a +0.2
  seniority-keyword bonus and a 0.4 acceptance threshold),
* `find_title_match`   in `src/agents/enrichment_agent.py` (threshold,
  no bonus),
* `find_best_match`     in `src/services/pdl.py` (no threshold, no
  bonus, defaults to the first person).
All lowercase, replace hyphens by spaces, split into word sets and
remove stop-words.
-/

/-- The stop-word set shared by all three matchers. -/
def stopWords : Finset String :=
  {"of", "the", "and", "a", "an", "at", "in", "for"}

/-- `set(s.replace("-", " ").split())` for an already-lowercased `s`. -/
def wordFinset (s : String) : Finset String :=
  (pySplit (pyReplace s "-" " ")).toFinset

/-- Seniority/role keywords earning the +0.2 bonus in
`hunter.find_best_title_match`. -/
def keyTitleWords : Finset String :=
  {"head", "vp", "vice", "president", "director", "manager", "chief", "lead", "senior"}

/-- `len(matching)/max(len(target_words), 1)` as an exact rational. -/
def overlapScore (matching denom : Nat) : ℚ :=
  mkRat matching (max denom 1)

/-- `len(matching)/max(len(target_words), 1) + 0.2`, written over the
common denominator `5 * max(denom, 1)` so that it evaluates with
`mkRat` alone. -/
def overlapScoreBonus (matching denom : Nat) : ℚ :=
  mkRat (5 * matching + max denom 1) (5 * max denom 1)

/-- A contact record as produced by `hunter.domain_search`: fields
`email` (Python value possibly `None`), `first_name`, `last_name`,
`position` (possibly `None`), `confidence`. -/
structure DSContact where
  email : Option String
  first_name : String
  last_name : String
  position : Option String
  confidence : Int
deriving DecidableEq, Repr

/-- Loop of `hunter.find_best_title_match` (src/services/hunter.py,
lines 139-183): tracks the best strictly-greater score, returns a
candidate immediately when one lowered string contains the other, and
at the end accepts the best candidate only when its score reached 0.4. -/
def hunterMatchLoop (targetL : String) (tws : Finset String) (best : Option DSContact)
    (bestScore : ℚ) : List DSContact → Option DSContact
  | [] => if mkRat 2 5 ≤ bestScore then best else none
  | c :: rest =>
    let posL := pyLower (c.position.getD "")
    let pws := wordFinset posL \ stopWords
    if pws = ∅ then hunterMatchLoop targetL tws best bestScore rest
    else if pyIn targetL posL || pyIn posL targetL then some c
    else
      let matching := tws ∩ pws
      let score :=
        if matching ∩ keyTitleWords = ∅ then overlapScore matching.card tws.card
        else overlapScoreBonus matching.card tws.card
      if bestScore < score then hunterMatchLoop targetL tws (some c) score rest
      else hunterMatchLoop targetL tws best bestScore rest

/-- `find_best_title_match` from `src/services/hunter.py`. -/
def find_best_title_match (contacts : List DSContact) (target_title : String) :
    Option DSContact :=
  if target_title = "" then none
  else
    hunterMatchLoop (pyLower target_title)
      (wordFinset (pyLower target_title) \ stopWords) none (mkRat 0 1) contacts

/-- Loop of `find_title_match` from `src/agents/enrichment_agent.py`
(lines 92-120): identical to the hunter loop except that no seniority
bonus is applied. -/
def agentMatchLoop (targetL : String) (tws : Finset String) (best : Option DSContact)
    (bestScore : ℚ) : List DSContact → Option DSContact
  | [] => if mkRat 2 5 ≤ bestScore then best else none
  | c :: rest =>
    let posL := pyLower (c.position.getD "")
    let pws := wordFinset posL \ stopWords
    if pws = ∅ then agentMatchLoop targetL tws best bestScore rest
    else if pyIn targetL posL || pyIn posL targetL then some c
    else
      let score := overlapScore (tws ∩ pws).card tws.card
      if bestScore < score then agentMatchLoop targetL tws (some c) score rest
      else agentMatchLoop targetL tws best bestScore rest

/-- `find_title_match` from `src/agents/enrichment_agent.py`. -/
def find_title_match (contacts : List DSContact) (target_title : String) :
    Option DSContact :=
  if target_title = "" then none
  else
    agentMatchLoop (pyLower target_title)
      (wordFinset (pyLower target_title) \ stopWords) none (mkRat 0 1) contacts

/-- A person record as consumed by `pdl.find_best_match`; only the
`job_title` field is used for matching, the name fields identify the
person. -/
structure PdlPerson where
  first_name : String
  last_name : String
  job_title : String
deriving DecidableEq, Repr

/-- Loop of `find_best_match` from `src/services/pdl.py` (lines
175-197): same normalisation and overlap score, but `best_match`
starts as `people[0]` and no acceptance threshold exists, so some
person is always returned. -/
def pdlMatchLoop (targetL : String) (tws : Finset String) (best : PdlPerson)
    (bestScore : ℚ) : List PdlPerson → PdlPerson
  | [] => best
  | p :: rest =>
    let titleL := pyLower p.job_title
    let pws := wordFinset titleL \ stopWords
    if pws = ∅ then pdlMatchLoop targetL tws best bestScore rest
    else if pyIn targetL titleL || pyIn titleL targetL then p
    else
      let score := overlapScore (tws ∩ pws).card tws.card
      if bestScore < score then pdlMatchLoop targetL tws p score rest
      else pdlMatchLoop targetL tws best bestScore rest

/-- `find_best_match` from `src/services/pdl.py`.  On an empty list the
Python source would raise `IndexError` at `people[0]`; its only caller
guards with `len(data) > 0`, which the `Option` result records. -/
def find_best_match (people : List PdlPerson) (target_title : String) : Option PdlPerson :=
  match people with
  | [] => none
  | p0 :: _ =>
    some (pdlMatchLoop (pyLower target_title)
      (wordFinset (pyLower target_title) \ stopWords) p0 (mkRat 0 1) people)

/-- The result of `pdlMatchLoop` is always drawn from the candidate
list or the initial best. -/
theorem pdlMatchLoop_mem (targetL : String) (tws : Finset String) :
    ∀ (l : List PdlPerson) (best : PdlPerson) (bestScore : ℚ) (S : List PdlPerson),
      best ∈ S → (∀ p ∈ l, p ∈ S) →
      pdlMatchLoop targetL tws best bestScore l ∈ S := by
  intro l
  induction l with
  | nil => intro best bs S hb _; simpa [pdlMatchLoop] using hb
  | cons p rest ih =>
    intro best bs S hb hl
    simp only [pdlMatchLoop]
    split
    · exact ih best bs S hb fun q hq => hl q (List.mem_cons_of_mem _ hq)
    · split
      · exact hl p (List.mem_cons_self _ _)
      · split
        · exact ih p _ S (hl p (List.mem_cons_self _ _))
            fun q hq => hl q (List.mem_cons_of_mem _ hq)
        · exact ih best bs S hb fun q hq => hl q (List.mem_cons_of_mem _ hq)

/-! ## Claims C3 and C7: title-matcher behaviour -/

/-- The candidate from the spec's substring-short-circuit scenario. -/
def cVP : DSContact :=
  { email := some "sam@acme.com", first_name := "Sam", last_name := "Lee",
    position := some "VP of Customer Support and Head of Support Operations",
    confidence := 80 }

/-- A candidate whose position shares no word with "HR Manager". -/
def cSE : DSContact :=
  { email := some "eng@acme.com", first_name := "Edie", last_name := "Ng",
    position := some "Software Engineer", confidence := 70 }

/-- The same no-overlap candidate as a PDL person record. -/
def pSE : PdlPerson :=
  { first_name := "Pat", last_name := "Quinn", job_title := "Software Engineer" }

/-- C3, counterexample: the claim asserts that for target "Head of
Support" and position "VP of Customer Support and Head of Support
Operations" neither normalized string is a substring of the other, so
the exact-substring short-circuit does not fire.  In fact the lowered
target "head of support" IS a substring of the lowered position, so the
short-circuit does fire (in both the hunter and the agent variant of
the matcher). -/
theorem C3_substring_counterexample :
    pyIn (pyLower "Head of Support")
      (pyLower "VP of Customer Support and Head of Support Operations") = true := by
  decide

/-- C3, amended: for target "Head of Support" the candidate with
position "VP of Customer Support and Head of Support Operations" is
selected by both matcher variants, but via the exact-substring
short-circuit (the lowered target is a substring of the lowered
position), not via overlap scoring; its overlap score, had it been
computed, would indeed have been ≥ 0.4 (words head/support overlap
after stop-word removal). -/
theorem C3_short_circuit_selects :
    find_best_title_match [cVP] "Head of Support" = some cVP
    ∧ find_title_match [cVP] "Head of Support" = some cVP
    ∧ pyIn (pyLower "Head of Support") (pyLower (cVP.position.getD "")) = true
    ∧ (let tws := wordFinset (pyLower "Head of Support") \ stopWords
       let pws := wordFinset (pyLower (cVP.position.getD "")) \ stopWords
       mkRat 2 5 ≤ overlapScore (tws ∩ pws).card tws.card) := by
  refine ⟨by decide, by decide, by decide, by decide⟩

/-- C7, counterexample: the claim asserts the hunter and PDL title
matchers are equivalent, both returning "no match" when the best
overlap score is below 0.4.  On target "HR Manager" with a single
zero-overlap candidate, the hunter matcher returns none while the PDL
matcher returns that candidate (it defaults to `people[0]` and applies
no threshold). -/
theorem C7_matchers_counterexample :
    find_best_title_match [cSE] "HR Manager" = none
    ∧ find_best_match [pSE] "HR Manager" = some pSE := by
  exact ⟨by decide, by decide⟩

/-- C7, amended: the two procedures are not equivalent.  The hunter
matcher enforces the ≥ 0.4 acceptance threshold (and adds a +0.2
seniority-keyword bonus), returning "no match" below it; the PDL
matcher never returns "no match" on a non-empty candidate list — it
always returns some member of the list, defaulting to the first
person, as the concrete zero-overlap input shows. -/
theorem C7_matchers_divergence :
    (∀ (target_title : String) (p0 : PdlPerson) (rest : List PdlPerson),
      ∃ q, find_best_match (p0 :: rest) target_title = some q ∧ q ∈ p0 :: rest)
    ∧ find_best_title_match [cSE] "HR Manager" = none
    ∧ find_best_match [pSE] "HR Manager" = some pSE := by
  refine ⟨?_, by decide, by decide⟩
  intro tt p0 rest
  refine ⟨_, rfl, ?_⟩
  exact pdlMatchLoop_mem _ _ (p0 :: rest) p0 (mkRat 0 1) (p0 :: rest)
    (List.mem_cons_self _ _) (fun q hq => hq)

/-! ## Claims C4 and C5: cross-source deduplication

The merge loop of `research_all_sources` (src/agents/research_agent.py,
lines 426-450): lowercase the domain, discard records whose domain is
empty, has no ".", or is shorter than 4 characters, keep the first
record per domain, and fill in default `status`/`score`/`signals`
fields when absent.
-/

/-- A candidate company record arriving at the merge loop.  The
`status`, `score` and `signals` keys may be absent (`none`); `signals`
is the single-entry dict `{signal_type: signal_detail}`. -/
structure RCompany where
  company_name : String
  domain : String
  source_url : String
  signal_type : String
  signal_detail : String
  status : Option String
  score : Option Int
  signals : Option (String × String)
deriving DecidableEq, Repr

/-- `company.get("domain", "").lower()` — the deduplication key. -/
def lowDomain (c : RCompany) : String := pyLower c.domain

/-- The domain-validity test of the merge loop:
`not (not domain or "." not in domain or len(domain) < 4)`. -/
def okDomain (d : String) : Bool :=
  !(d == "") && d.data.contains '.' && decide (4 ≤ d.data.length)

/-- The three `if "..." not in company` default fills of the merge
loop. -/
def withDefaults (c : RCompany) : RCompany :=
  { c with
    status := some (c.status.getD "discovered"),
    score := some (c.score.getD 0),
    signals := some (c.signals.getD (c.signal_type, c.signal_detail)) }

/-- The merge loop itself, with `seen` the set of already-seen
lowercased domains. -/
def dedupeAux (seen : List String) : List RCompany → List RCompany
  | [] => []
  | c :: rest =>
    let d := lowDomain c
    if okDomain d = false then dedupeAux seen rest
    else if seen.contains d then dedupeAux seen rest
    else withDefaults c :: dedupeAux (d :: seen) rest

/-- The deduplication pass of `research_all_sources`, started with an
empty seen-set. -/
def research_dedup (l : List RCompany) : List RCompany := dedupeAux [] l

theorem lowDomain_withDefaults (c : RCompany) : lowDomain (withDefaults c) = lowDomain c := rfl

theorem withDefaults_idem (c : RCompany) : withDefaults (withDefaults c) = withDefaults c := rfl

/-- Every record surviving the merge loop has a valid lowercased
domain. -/
theorem dedupeAux_valid : ∀ (l : List RCompany) (seen : List String),
    ∀ c ∈ dedupeAux seen l, okDomain (lowDomain c) = true := by
  intro l
  induction l with
  | nil => intro seen c hc; simp [dedupeAux] at hc
  | cons a rest ih =>
    intro seen c hc
    simp only [dedupeAux] at hc
    split at hc
    · exact ih seen c hc
    · split at hc
      · exact ih seen c hc
      · rcases List.mem_cons.1 hc with h | h
        · subst h
          rw [lowDomain_withDefaults]
          rename_i hok _
          simpa using hok
        · exact ih _ c h

/-- No record surviving the merge loop has its key in the incoming
seen-set. -/
theorem dedupeAux_key_notLeft : ∀ (l : List RCompany) (seen : List String),
    ∀ c ∈ dedupeAux seen l, lowDomain c ∉ seen := by
  intro l
  induction l with
  | nil => intro seen c hc; simp [dedupeAux] at hc
  | cons a rest ih =>
    intro seen c hc
    simp only [dedupeAux] at hc
    split at hc
    · exact ih seen c hc
    · split at hc
      · exact ih seen c hc
      · rcases List.mem_cons.1 hc with h | h
        · subst h
          rw [lowDomain_withDefaults]
          rename_i hseen
          intro hmem
          exact hseen (by simpa [List.elem_iff] using hmem)
        · intro hmem
          exact ih _ c h (List.mem_cons_of_mem _ hmem)

/-- The keys of the merge-loop output are pairwise distinct. -/
theorem dedupeAux_keys_nodup : ∀ (l : List RCompany) (seen : List String),
    ((dedupeAux seen l).map lowDomain).Nodup := by
  intro l
  induction l with
  | nil => intro seen; simp [dedupeAux]
  | cons a rest ih =>
    intro seen
    simp only [dedupeAux]
    split
    · exact ih seen
    · split
      · exact ih seen
      · simp only [List.map_cons, List.nodup_cons]
        constructor
        · intro hmem
          rcases List.mem_map.1 hmem with ⟨c, hc, hkey⟩
          have := dedupeAux_key_notLeft rest (lowDomain a :: seen) c hc
          rw [lowDomain_withDefaults] at hkey
          exact this (hkey ▸ List.mem_cons_self _ _)
        · exact ih _

/-- The merge-loop output is (the default-filling of) an
order-preserving selection of the input. -/
theorem dedupeAux_sublist : ∀ (l : List RCompany) (seen : List String),
    ∃ l', List.Sublist l' l ∧ dedupeAux seen l = l'.map withDefaults := by
  intro l
  induction l with
  | nil => intro seen; exact ⟨[], List.Sublist.refl _, rfl⟩
  | cons a rest ih =>
    intro seen
    simp only [dedupeAux]
    split
    · rcases ih seen with ⟨l', hsub, heq⟩
      exact ⟨l', hsub.cons _, heq⟩
    · split
      · rcases ih seen with ⟨l', hsub, heq⟩
        exact ⟨l', hsub.cons _, heq⟩
      · rcases ih (lowDomain a :: seen) with ⟨l', hsub, heq⟩
        exact ⟨a :: l', hsub.cons₂ _, by simp [heq]⟩

/-- Each surviving record is the default-filling of the FIRST input
record carrying its (valid) key: first occurrence wins. -/
theorem dedupeAux_first : ∀ (l : List RCompany) (seen : List String),
    ∀ c ∈ dedupeAux seen l,
      ∃ c₀, l.find? (fun x => okDomain (lowDomain x) && (lowDomain x == lowDomain c)) = some c₀
        ∧ c = withDefaults c₀ := by
  intro l
  induction l with
  | nil => intro seen c hc; simp [dedupeAux] at hc
  | cons a rest ih =>
    intro seen c hc
    simp only [dedupeAux] at hc
    by_cases hok : okDomain (lowDomain a) = false
    · rw [if_pos hok] at hc
      rcases ih seen c hc with ⟨c₀, hfind, heq⟩
      exact ⟨c₀, by rw [List.find?_cons_of_neg _ (by simp [hok]), hfind], heq⟩
    · rw [if_neg hok] at hc
      have hokT : okDomain (lowDomain a) = true := by
        revert hok; cases okDomain (lowDomain a) <;> simp
      by_cases hseen : seen.contains (lowDomain a) = true
      · rw [if_pos hseen] at hc
        have hne : lowDomain a ≠ lowDomain c := by
          intro h
          exact dedupeAux_key_notLeft rest seen c hc
            (h ▸ (by simpa [List.elem_iff] using hseen))
        rcases ih seen c hc with ⟨c₀, hfind, heq⟩
        exact ⟨c₀, by rw [List.find?_cons_of_neg _ (by simp [hne]), hfind], heq⟩
      · rw [if_neg hseen] at hc
        rcases List.mem_cons.1 hc with h | h
        · refine ⟨a, ?_, h⟩
          rw [List.find?_cons_of_pos]
          simp [hokT, h, lowDomain_withDefaults]
        · have hkey := dedupeAux_key_notLeft rest (lowDomain a :: seen) c h
          have hne : lowDomain a ≠ lowDomain c := by
            intro heq'
            exact hkey (heq' ▸ List.mem_cons_self _ _)
          rcases ih (lowDomain a :: seen) c h with ⟨c₀, hfind, heq⟩
          exact ⟨c₀, by rw [List.find?_cons_of_neg _ (by simp [hne]), hfind], heq⟩

/-- Every valid input key appears among the output keys (no valid
record is silently lost — only duplicates and invalid domains are
dropped). -/
theorem dedupeAux_complete : ∀ (l : List RCompany) (seen : List String),
    ∀ x ∈ l, okDomain (lowDomain x) = true →
      lowDomain x ∈ seen ∨ lowDomain x ∈ (dedupeAux seen l).map lowDomain := by
  intro l
  induction l with
  | nil => intro seen x hx; simp at hx
  | cons a rest ih =>
    intro seen x hx hok
    simp only [dedupeAux]
    rcases List.mem_cons.1 hx with h | h
    · subst h
      rw [if_neg (by simp [hok])]
      by_cases hseen : seen.contains (lowDomain x) = true
      · exact Or.inl (by simpa [List.elem_iff] using hseen)
      · rw [if_neg hseen]
        exact Or.inr (by simp [lowDomain_withDefaults])
    · split
      · exact ih seen x h hok
      · split
        · exact ih seen x h hok
        · rcases ih (lowDomain a :: seen) x h hok with hL | hR
          · rcases List.mem_cons.1 hL with h1 | h2
            · exact Or.inr (by simp [lowDomain_withDefaults, h1])
            · exact Or.inl h2
          · exact Or.inr (by simp [hR])

/-- On input already consisting of valid, default-filled, key-distinct
records with keys disjoint from `seen`, the merge loop is the
identity. -/
theorem dedupeAux_fixed : ∀ (l : List RCompany) (seen : List String),
    (∀ c ∈ l, okDomain (lowDomain c) = true) →
    (∀ c ∈ l, withDefaults c = c) →
    ((l.map lowDomain).Nodup) →
    (∀ c ∈ l, lowDomain c ∉ seen) →
    dedupeAux seen l = l := by
  intro l
  induction l with
  | nil => intro seen _ _ _ _; rfl
  | cons a rest ih =>
    intro seen hok hfix hnd hdisj
    have hokA := hok a (List.mem_cons_self _ _)
    have hcont : seen.contains (lowDomain a) = false := by
      have := hdisj a (List.mem_cons_self _ _)
      revert this
      rw [← Bool.not_eq_true]
      simp [List.elem_iff]
    simp only [dedupeAux, hokA, hcont]
    rw [if_neg (by simp), if_neg (by simp)]
    rw [hfix a (List.mem_cons_self _ _)]
    congr 1
    apply ih
    · exact fun c hc => hok c (List.mem_cons_of_mem _ hc)
    · exact fun c hc => hfix c (List.mem_cons_of_mem _ hc)
    · exact (List.nodup_cons.1 (by simpa using hnd)).2
    · intro c hc
      simp only [List.mem_cons]
      rintro (h | h)
      · exact (List.nodup_cons.1 (by simpa using hnd)).1
          (h ▸ List.mem_map_of_mem lowDomain hc)
      · exact hdisj c (List.mem_cons_of_mem _ hc) h

/-- C4: for every input sequence, the cross-source Deduplicator of
`research_all_sources` (i) only outputs records with a valid lowercased
domain (non-empty, containing ".", length ≥ 4), (ii) outputs at most
one record per lowercased domain, (iii) preserves first-occurrence
input order — the output is the default-filled image of an
order-preserving selection of the input, (iv) keeps for each key
exactly the FIRST valid input record with that key (later duplicates
are dropped silently), and (v) loses no valid input key. -/
theorem C4_dedup_contract : ∀ l : List RCompany,
    (∀ c ∈ research_dedup l, okDomain (lowDomain c) = true)
    ∧ ((research_dedup l).map lowDomain).Nodup
    ∧ (∃ l', List.Sublist l' l ∧ research_dedup l = l'.map withDefaults)
    ∧ (∀ c ∈ research_dedup l,
        ∃ c₀, l.find? (fun x => okDomain (lowDomain x) && (lowDomain x == lowDomain c)) = some c₀
          ∧ c = withDefaults c₀)
    ∧ (∀ x ∈ l, okDomain (lowDomain x) = true →
        lowDomain x ∈ (research_dedup l).map lowDomain) := by
  intro l
  refine ⟨dedupeAux_valid l [], dedupeAux_keys_nodup l [], dedupeAux_sublist l [],
    dedupeAux_first l [], ?_⟩
  intro x hx hok
  rcases dedupeAux_complete l [] x hx hok with h | h
  · simp at h
  · exact h

/-- C5: the Deduplicator is idempotent — applying the pass to its own
output yields that output unchanged. -/
theorem C5_dedup_idempotent : ∀ l : List RCompany,
    research_dedup (research_dedup l) = research_dedup l := by
  intro l
  unfold research_dedup
  apply dedupeAux_fixed
  · exact dedupeAux_valid l []
  · intro c hc
    rcases dedupeAux_first l [] c hc with ⟨c₀, _, h⟩
    rw [h, withDefaults_idem]
  · exact dedupeAux_keys_nodup l []
  · intro c _
    simp

/-- A record arriving with no `status`/`score`/`signals` keys. -/
def cAcme : RCompany :=
  { company_name := "Acme", domain := "Acme.com", source_url := "u1",
    signal_type := "hiring", signal_detail := "Hiring SDR",
    status := none, score := none, signals := none }

/-- A record with an invalid domain (no "."). -/
def cNoDot : RCompany :=
  { company_name := "NoDot", domain := "xyz", source_url := "u2",
    signal_type := "funding", signal_detail := "Raised seed",
    status := none, score := none, signals := none }

/-- A later duplicate of `cAcme` under the lowercased-domain key. -/
def cAcmeDup : RCompany :=
  { company_name := "Acme Inc", domain := "acme.com", source_url := "u3",
    signal_type := "funding", signal_detail := "Raised A",
    status := none, score := none, signals := none }

/-- A record that already carries all default-filled keys. -/
def cBeta : RCompany :=
  { company_name := "Beta", domain := "beta.io", source_url := "u4",
    signal_type := "yc_company", signal_detail := "W24",
    status := some "enriched", score := some 5,
    signals := some ("yc_company", "W24") }

/-- C4, witness: the contract instantiated on a concrete batch holding
a case-varying duplicate, an invalid domain, and a pre-filled record. -/
theorem C4_dedup_contract_witness :
    okDomain (lowDomain (withDefaults cAcme)) = true
    ∧ (∃ c₀, ([cAcme, cNoDot, cAcmeDup, cBeta].find?
        (fun x => okDomain (lowDomain x) && (lowDomain x == lowDomain (withDefaults cAcme)))) = some c₀
        ∧ withDefaults cAcme = withDefaults c₀)
    ∧ lowDomain cBeta ∈ (research_dedup [cAcme, cNoDot, cAcmeDup, cBeta]).map lowDomain := by
  have h := C4_dedup_contract [cAcme, cNoDot, cAcmeDup, cBeta]
  exact ⟨h.1 _ (by decide), h.2.2.2.1 _ (by decide), h.2.2.2.2 cBeta (by decide) (by decide)⟩

/-! ## Claims C6, C9, C10: signal scoring, qualification, openers

Embedding of `calculate_scores`, `filter_qualified`,
`generate_talking_points` and `generate_opener` from
`src/agents/scoring_agent.py`.  Per-lead scoring is pure; each
`score += w; signals.append(...)` pair of the source is one
`addSignal` step on a `(score, signals)` accumulator.
-/

/-- A categorized tech-stack detection attached by `enrich_with_tech`:
`{"type": ..., "tool": ..., "detail": ...}`. -/
structure TechSignal where
  type : String
  tool : String
  detail : String
deriving DecidableEq, Repr

/-- A lead as it enters `calculate_scores`. -/
structure RLead where
  company_name : String
  domain : String
  signal_type : String
  signal_detail : String
  tech_signals : List TechSignal
deriving DecidableEq, Repr

/-- One entry of the per-lead `signals` list. -/
structure Signal where
  type : String
  points : Int
  detail : String
deriving DecidableEq, Repr

/-- The `SIGNAL_WEIGHTS` table of `src/agents/scoring_agent.py`,
reproduced verbatim (keys absent from the table score 0 — in the
source a missing key would raise, but only the listed keys are ever
looked up). -/
def SIGNAL_WEIGHTS : String → Int
  | "hiring_sales" => 40
  | "hiring_multiple" => 10
  | "hiring_leadership" => 35
  | "funding" => 40
  | "tech_competitor" => 15
  | "tech_target" => 10
  | "reddit_mention" => 30
  | "reddit_buying_intent" => 35
  | "g2_complaint" => 40
  | "growth_signal" => 25
  | "combo_bonus" => 10
  | _ => 0

theorem SIGNAL_WEIGHTS_nonneg (k : String) : 0 ≤ SIGNAL_WEIGHTS k := by
  unfold SIGNAL_WEIGHTS
  split <;> omega

/-- `sales_keywords` from `calculate_scores`. -/
def sales_keywords : List String :=
  ["sdr", "bdr", "sales", "account executive", "ae", "business development"]

/-- `leadership_keywords` from `calculate_scores`. -/
def leadership_keywords : List String :=
  ["vp", "head of", "director", "chief", "cro"]

/-- `any(kw in s for kw in kws)`. -/
def anyKwIn (kws : List String) (s : String) : Bool :=
  kws.any (fun kw => pyIn kw s)

/-- One `score += SIGNAL_WEIGHTS[ty]; signals.append({...})` step,
guarded by its condition. -/
def addSignal (acc : Int × List Signal) (cond : Bool) (ty detail : String) :
    Int × List Signal :=
  if cond then (acc.1 + SIGNAL_WEIGHTS ty, acc.2 ++ [⟨ty, SIGNAL_WEIGHTS ty, detail⟩])
  else acc

/-- The tech-stack loop of `calculate_scores` (an `if`/`elif` per
detected tool). -/
def techSignalsAcc : Int × List Signal → List TechSignal → Int × List Signal
  | acc, [] => acc
  | acc, t :: rest =>
    if t.type == "tech_competitor" then
      techSignalsAcc (addSignal acc true "tech_competitor" t.detail) rest
    else if t.type == "tech_target" then
      techSignalsAcc (addSignal acc true "tech_target" t.detail) rest
    else techSignalsAcc acc rest

/-- `f"Multiple signals detected ({len(signals)})"`. -/
def comboDetail (n : Nat) : String :=
  "Multiple signals detected " ++ "(" ++ toString n ++ ")"

/-- The combo-bonus step: one more signal when three or more have
accumulated. -/
def comboStep (acc : Int × List Signal) : Int × List Signal :=
  addSignal acc (decide (3 ≤ acc.2.length)) "combo_bonus" (comboDetail acc.2.length)

/-- The `(score, signals)` accumulator of `calculate_scores` for one
lead: hiring-sales, hiring-leadership, funding, tech signals, then the
combo bonus. -/
def scoreAcc (lead : RLead) : Int × List Signal :=
  comboStep
    (techSignalsAcc
      (addSignal
        (addSignal
          (addSignal (0, [])
            (lead.signal_type == "hiring"
              && anyKwIn sales_keywords (pyLower lead.signal_detail))
            "hiring_sales" lead.signal_detail)
          (lead.signal_type == "hiring"
            && anyKwIn leadership_keywords (pyLower lead.signal_detail))
          "hiring_leadership" "Hiring sales leadership")
        (lead.signal_type == "funding"
          || pyIn "funding" (pyLower lead.signal_detail)
          || pyIn "raised" (pyLower lead.signal_detail))
        "funding" lead.signal_detail)
      lead.tech_signals)

/-- `tier` from the clamped score. -/
def tierOf (score : Int) : String :=
  if 80 ≤ score then "hot" else if 50 ≤ score then "warm" else "cold"

/-- `tier_label` from the clamped score. -/
def tierLabelOf (score : Int) : String :=
  if 80 ≤ score then "🔥 HOT" else if 50 ≤ score then "🟡 WARM" else "❄️ COLD"

/-- `recommended_action` from the clamped score. -/
def actionOf (score : Int) : String :=
  if 80 ≤ score then "Contact immediately"
  else if 50 ≤ score then "Contact this week"
  else "Keep monitoring"

/-- A lead after `calculate_scores`; `talking_points`/`sample_opener`
keys are absent until `generate_talking_points` runs, which reading
code treats as `[]`/`""`. -/
structure ScoredLead where
  company_name : String
  domain : String
  signal_type : String
  signal_detail : String
  tech_signals : List TechSignal
  score : Int
  signals : List Signal
  signal_count : Nat
  tier : String
  tier_label : String
  recommended_action : String
  talking_points : List String
  sample_opener : String
deriving DecidableEq, Repr

/-- The per-lead body of `calculate_scores` (src/agents/scoring_agent.py,
lines 115-226): accumulate signals, cap the score at 100, derive
tier/label/action from the capped score. -/
def scoreLead (lead : RLead) : ScoredLead :=
  { company_name := lead.company_name, domain := lead.domain,
    signal_type := lead.signal_type, signal_detail := lead.signal_detail,
    tech_signals := lead.tech_signals,
    score := min (scoreAcc lead).1 100,
    signals := (scoreAcc lead).2,
    signal_count := (scoreAcc lead).2.length,
    tier := tierOf (min (scoreAcc lead).1 100),
    tier_label := tierLabelOf (min (scoreAcc lead).1 100),
    recommended_action := actionOf (min (scoreAcc lead).1 100),
    talking_points := [],
    sample_opener := "" }

/-- `filter_qualified` (src/agents/scoring_agent.py, lines 234-256):
one pass splitting leads into qualified and unqualified. -/
def filter_qualified (min_signals : Nat) (min_score : Int)
    (scored : List ScoredLead) : List ScoredLead × List ScoredLead :=
  scored.partition
    (fun l => decide (min_signals ≤ l.signal_count) && decide (min_score ≤ l.score))

/-- Sum of the `points` fields of a signal list. -/
def sigPoints (l : List Signal) : Int := (l.map Signal.points).sum

/-- The accumulator invariant: the running score equals the points sum
of the accumulated signals and is non-negative. -/
def AccInv (acc : Int × List Signal) : Prop :=
  acc.1 = sigPoints acc.2 ∧ 0 ≤ acc.1

theorem accInv_nil : AccInv (0, []) := ⟨rfl, le_refl 0⟩

theorem addSignal_inv (acc : Int × List Signal) (cond : Bool) (ty detail : String)
    (h : AccInv acc) : AccInv (addSignal acc cond ty detail) := by
  obtain ⟨h1, h2⟩ := h
  cases cond with
  | false => exact ⟨h1, h2⟩
  | true =>
    have hw := SIGNAL_WEIGHTS_nonneg ty
    constructor
    · show acc.1 + SIGNAL_WEIGHTS ty
        = sigPoints (acc.2 ++ [⟨ty, SIGNAL_WEIGHTS ty, detail⟩])
      rw [h1]
      simp [sigPoints]
    · show 0 ≤ acc.1 + SIGNAL_WEIGHTS ty
      omega

theorem techSignalsAcc_inv : ∀ (ts : List TechSignal) (acc : Int × List Signal),
    AccInv acc → AccInv (techSignalsAcc acc ts) := by
  intro ts
  induction ts with
  | nil => intro acc h; exact h
  | cons t rest ih =>
    intro acc h
    simp only [techSignalsAcc]
    split
    · exact ih _ (addSignal_inv _ _ _ _ h)
    · split
      · exact ih _ (addSignal_inv _ _ _ _ h)
      · exact ih _ h

theorem scoreAcc_inv (lead : RLead) : AccInv (scoreAcc lead) :=
  addSignal_inv _ _ _ _
    (techSignalsAcc_inv _ _
      (addSignal_inv _ _ _ _ (addSignal_inv _ _ _ _ (addSignal_inv _ _ _ _ accInv_nil))))

/-- The concrete over-125-points lead of the spec's score-clamp
scenario: hiring-sales (40) + hiring-leadership (35) + funding (40)
+ combo bonus (10). -/
def demoLead : RLead :=
  { company_name := "DemoCo", domain := "demo.io", signal_type := "hiring",
    signal_detail := "Hiring VP of Sales after we raised a Series B",
    tech_signals := [] }

/-- C6: for every scored lead the final score is the points sum of its
signals clamped to at most 100 and is never negative, and
tier/label/action are pure functions of the clamped score; the
125-raw-point lead reports score 100 and tier "hot". -/
theorem C6_score_clamp_tier :
    (∀ lead : RLead,
      (scoreLead lead).score = min (sigPoints (scoreLead lead).signals) 100
      ∧ 0 ≤ (scoreLead lead).score
      ∧ (scoreLead lead).tier = tierOf (scoreLead lead).score)
    ∧ sigPoints (scoreAcc demoLead).2 = 125
    ∧ (scoreLead demoLead).score = 100
    ∧ (scoreLead demoLead).tier = "hot" := by
  refine ⟨?_, by decide, by decide, by decide⟩
  intro lead
  obtain ⟨hsum, hpos⟩ := scoreAcc_inv lead
  refine ⟨?_, ?_, rfl⟩
  · show min (scoreAcc lead).1 100 = min (sigPoints (scoreAcc lead).2) 100
    rw [hsum]
  · show 0 ≤ min (scoreAcc lead).1 100
    omega

/-- No signal produced before the combo step carries the type
`"combo_bonus"`. -/
def NoCombo (acc : Int × List Signal) : Prop :=
  ∀ s ∈ acc.2, s.type ≠ "combo_bonus"

theorem addSignal_noCombo (acc : Int × List Signal) (cond : Bool) (ty detail : String)
    (hty : ty ≠ "combo_bonus") (h : NoCombo acc) :
    NoCombo (addSignal acc cond ty detail) := by
  cases cond with
  | false => exact h
  | true =>
    intro s hs
    rcases List.mem_append.1 hs with h1 | h1
    · exact h s h1
    · have : s = ⟨ty, SIGNAL_WEIGHTS ty, detail⟩ := by simpa using h1
      subst this
      exact hty

theorem techSignalsAcc_noCombo : ∀ (ts : List TechSignal) (acc : Int × List Signal),
    NoCombo acc → NoCombo (techSignalsAcc acc ts) := by
  intro ts
  induction ts with
  | nil => intro acc h; exact h
  | cons t rest ih =>
    intro acc h
    simp only [techSignalsAcc]
    split
    · exact ih _ (addSignal_noCombo _ _ _ _ (by decide) h)
    · split
      · exact ih _ (addSignal_noCombo _ _ _ _ (by decide) h)
      · exact ih _ h

/-- If the combo step produced a `"combo_bonus"` entry, it fired, so
at least three signals preceded it and the list now has length ≥ 4. -/
theorem comboStep_len (acc : Int × List Signal) (h : NoCombo acc) :
    "combo_bonus" ∈ (comboStep acc).2.map Signal.type → 4 ≤ (comboStep acc).2.length := by
  unfold comboStep
  by_cases h3 : 3 ≤ acc.2.length
  · intro _
    simp [addSignal, h3]
  · intro hmem
    exfalso
    have heq : (addSignal acc (decide (3 ≤ acc.2.length)) "combo_bonus"
        (comboDetail acc.2.length)).2 = acc.2 := by
      simp [addSignal, h3]
    rw [heq] at hmem
    rcases List.mem_map.1 hmem with ⟨s, hs, hty⟩
    exact h s hs hty

theorem scoreAcc_noCombo_pre (lead : RLead) :
    NoCombo (techSignalsAcc
      (addSignal
        (addSignal
          (addSignal (0, [])
            (lead.signal_type == "hiring"
              && anyKwIn sales_keywords (pyLower lead.signal_detail))
            "hiring_sales" lead.signal_detail)
          (lead.signal_type == "hiring"
            && anyKwIn leadership_keywords (pyLower lead.signal_detail))
          "hiring_leadership" "Hiring sales leadership")
        (lead.signal_type == "funding"
          || pyIn "funding" (pyLower lead.signal_detail)
          || pyIn "raised" (pyLower lead.signal_detail))
        "funding" lead.signal_detail)
      lead.tech_signals) := by
  apply techSignalsAcc_noCombo
  apply addSignal_noCombo _ _ _ _ (by decide)
  apply addSignal_noCombo _ _ _ _ (by decide)
  apply addSignal_noCombo _ _ _ _ (by decide)
  intro s hs
  simp at hs

/-- C9: the reported `signal_count` is the length of the emitted
`signals` list including the combo-bonus entry itself; consequently a
lead carrying the combo bonus reports at least 4 signals; and the
qualifier keeps exactly the leads with `signal_count ≥ min_signals`
and `score ≥ min_score` (set apart, not discarded). -/
theorem C9_signal_count_combo :
    (∀ lead : RLead, (scoreLead lead).signal_count = (scoreLead lead).signals.length)
    ∧ (∀ lead : RLead,
        "combo_bonus" ∈ (scoreLead lead).signals.map Signal.type →
        4 ≤ (scoreLead lead).signals.length)
    ∧ (∀ (min_signals : Nat) (min_score : Int) (scored : List ScoredLead),
        (filter_qualified min_signals min_score scored).1
          = scored.filter
              (fun l => decide (min_signals ≤ l.signal_count) && decide (min_score ≤ l.score))
        ∧ (filter_qualified min_signals min_score scored).2
          = scored.filter
              (fun l => !(decide (min_signals ≤ l.signal_count) && decide (min_score ≤ l.score)))) := by
  refine ⟨fun lead => rfl, ?_, ?_⟩
  · intro lead
    exact comboStep_len _ (scoreAcc_noCombo_pre lead)
  · intro ms msc scored
    constructor
    · show (scored.partition
          (fun l => decide (ms ≤ l.signal_count) && decide (msc ≤ l.score))).1 = _
      rw [List.partition_eq_filter_filter]
    · show (scored.partition
          (fun l => decide (ms ≤ l.signal_count) && decide (msc ≤ l.score))).2 = _
      rw [List.partition_eq_filter_filter]
      rfl

/-- C9, witness: the 125-point demo lead carries the combo bonus and
reports 4 signals. -/
theorem C9_signal_count_combo_witness :
    "combo_bonus" ∈ (scoreLead demoLead).signals.map Signal.type
    ∧ 4 ≤ (scoreLead demoLead).signals.length := by
  exact ⟨by decide, C9_signal_count_combo.2.1 demoLead (by decide)⟩

/-- The per-signal branch of `generate_talking_points`
(src/agents/scoring_agent.py, lines 265-285): `none` for signal types
without a template. -/
def talkingPointOf (s : Signal) : Option String :=
  if s.type == "hiring_sales" then
    some ("Reference their sales hiring: \"" ++ s.detail ++ "\"")
  else if s.type == "hiring_leadership" then
    some "Mention you can help their new sales leader ramp up faster"
  else if s.type == "funding" then
    some "Congratulate on funding, mention scaling challenges"
  else if s.type == "tech_competitor" then
    some ("They use " ++ pyReplace (pyReplace s.detail "Uses " "") " (your competitor)" ""
      ++ " - mention your competitive advantages")
  else if s.type == "tech_target" then
    some ("Good tech fit: " ++ s.detail)
  else none

/-- `generate_opener` (src/agents/scoring_agent.py, lines 296-320):
driven by the first signal; the trailing `return ""` catches every
signal type without an opener template — `tech_target` included. -/
def generate_opener (lead : ScoredLead) : String :=
  match lead.signals with
  | [] => ""
  | top :: _ =>
    if top.type == "hiring_sales" then
      "Saw " ++ lead.company_name ++ " is " ++ pyLower top.detail
        ++ " - congrats on the growth! When teams scale outbound, they usually hit data quality issues fast..."
    else if top.type == "hiring_leadership" then
      "Noticed " ++ lead.company_name
        ++ " is bringing on new sales leadership. New leaders usually want quick wins - happy to show how we help teams book 5+ meetings/week..."
    else if top.type == "funding" then
      "Congrats on the funding! As you scale the sales team, data quality becomes critical. We help teams maintain <10% bounce rates..."
    else if top.type == "tech_competitor" then
      "Noticed " ++ lead.company_name ++ " uses "
        ++ pyReplace (pyReplace top.detail "Uses " "") " (your competitor)" ""
        ++ ". Many teams switch to us for better data quality and lower cost. Worth a quick comparison?"
    else ""

/-- The per-lead body of `generate_talking_points`: collect talking
points in signal order; set `sample_opener` only when at least one
talking point exists. -/
def generate_talking_points_lead (lead : ScoredLead) : ScoredLead :=
  let tps := lead.signals.filterMap talkingPointOf
  { lead with
    talking_points := tps,
    sample_opener := if tps.isEmpty then lead.sample_opener else generate_opener lead }

/-- `generate_talking_points` over the qualified list. -/
def generate_talking_points (leads : List ScoredLead) : List ScoredLead :=
  leads.map generate_talking_points_lead

/-- A lead whose only signal is a `tech_target` detection. -/
def techLead : RLead :=
  { company_name := "TechCo", domain := "tech.io", signal_type := "product_launch",
    signal_detail := "Launched on PH",
    tech_signals := [⟨"tech_target", "HubSpot", "Uses HubSpot (good fit)"⟩] }

/-- C10: for every scored lead whose first signal has type
`tech_target`, the talking-point pass produces a non-empty
`talking_points` list and still sets `sample_opener` to the empty
string (the opener template table has no `tech_target` arm); a
non-empty opener arises only when the first signal's type is
`hiring_sales`, `hiring_leadership`, `funding` or `tech_competitor`. -/
theorem C10_opener_tech_target : ∀ lead : RLead,
    ((scoreLead lead).signals.head?.map Signal.type = some "tech_target" →
      (generate_talking_points_lead (scoreLead lead)).talking_points ≠ []
      ∧ (generate_talking_points_lead (scoreLead lead)).sample_opener = "")
    ∧ ((generate_talking_points_lead (scoreLead lead)).sample_opener ≠ "" →
        (scoreLead lead).signals.head?.map Signal.type = some "hiring_sales"
        ∨ (scoreLead lead).signals.head?.map Signal.type = some "hiring_leadership"
        ∨ (scoreLead lead).signals.head?.map Signal.type = some "funding"
        ∨ (scoreLead lead).signals.head?.map Signal.type = some "tech_competitor") := by
  intro lead
  constructor
  · intro h
    rcases hsig : (scoreLead lead).signals with _ | ⟨top, rest⟩
    · rw [hsig] at h; simp at h
    · rw [hsig] at h
      simp only [List.head?_cons, Option.map_some'] at h
      have htop : top.type = "tech_target" := by
        injection h
      have htps : ((scoreLead lead).signals.filterMap talkingPointOf) ≠ [] := by
        rw [hsig]
        simp [List.filterMap_cons, talkingPointOf, htop]
      constructor
      · show (scoreLead lead).signals.filterMap talkingPointOf ≠ []
        exact htps
      · show (if ((scoreLead lead).signals.filterMap talkingPointOf).isEmpty
            then (scoreLead lead).sample_opener else generate_opener (scoreLead lead)) = ""
        rw [if_neg (by simpa [List.isEmpty_iff] using htps)]
        show generate_opener (scoreLead lead) = ""
        rw [generate_opener, hsig]
        simp [htop]
  · intro hD
    by_cases he : ((scoreLead lead).signals.filterMap talkingPointOf).isEmpty
    · exfalso
      apply hD
      show (if ((scoreLead lead).signals.filterMap talkingPointOf).isEmpty
          then (scoreLead lead).sample_opener else generate_opener (scoreLead lead)) = ""
      rw [if_pos he]
      rfl
    · have hop : generate_opener (scoreLead lead) ≠ "" := by
        intro h0
        apply hD
        show (if ((scoreLead lead).signals.filterMap talkingPointOf).isEmpty
            then (scoreLead lead).sample_opener else generate_opener (scoreLead lead)) = ""
        rw [if_neg he]
        exact h0
      rcases hsig : (scoreLead lead).signals with _ | ⟨top, rest⟩
      · exfalso; apply hop; rw [generate_opener, hsig]
      · rw [generate_opener, hsig] at hop
        simp only [List.head?_cons, Option.map_some']
        by_cases h1 : top.type = "hiring_sales"
        · exact Or.inl (by rw [h1])
        · by_cases h2 : top.type = "hiring_leadership"
          · exact Or.inr (Or.inl (by rw [h2]))
          · by_cases h3 : top.type = "funding"
            · exact Or.inr (Or.inr (Or.inl (by rw [h3])))
            · by_cases h4 : top.type = "tech_competitor"
              · exact Or.inr (Or.inr (Or.inr (by rw [h4])))
              · exfalso
                apply hop
                simp [h1, h2, h3, h4]

/-- C10, witness: the tech-target-only lead gets talking points but an
empty opener; the demo lead (first signal `hiring_sales`) has a
non-empty opener, so the theorem places its head type in the allowed
set. -/
theorem C10_opener_tech_target_witness :
    ((generate_talking_points_lead (scoreLead techLead)).talking_points ≠ []
      ∧ (generate_talking_points_lead (scoreLead techLead)).sample_opener = "")
    ∧ ((scoreLead demoLead).signals.head?.map Signal.type = some "hiring_sales"
        ∨ (scoreLead demoLead).signals.head?.map Signal.type = some "hiring_leadership"
        ∨ (scoreLead demoLead).signals.head?.map Signal.type = some "funding"
        ∨ (scoreLead demoLead).signals.head?.map Signal.type = some "tech_competitor") := by
  exact ⟨(C10_opener_tech_target techLead).1 (by decide),
    (C10_opener_tech_target demoLead).2 (by decide)⟩

/-! ## Claims C1, C2, C8: contact resolution

Embedding of `hunter_enrich`, `pdl_enrich` and `enrich_leads` from
`src/agents/enrichment_agent.py`.  The four service wrappers
(`find_email`, `domain_search`, `find_person`, `enrich_email`) are
opaque HTTP calls; the embedding is parametric in a `Providers` record
of oracle functions returning exactly the fields the agent reads.
-/

/-- A lead as produced by the research stage. -/
structure Lead where
  company_name : String
  domain : String
  signal_type : String
  signal_detail : String
deriving DecidableEq, Repr

/-- The fields of a `hunter.find_email` response read by the agent
(on error the wrapper returns a dict with `email = None`). -/
structure HunterFindResult where
  email : Option String
  first_name : String
  last_name : String
  position : String
  confidence : Int
  verified : Bool
deriving DecidableEq, Repr

/-- The fields of a `hunter.domain_search` response read by the agent
(on error `emails` is empty). -/
structure DomainSearchResult where
  company : Option String
  emails : List DSContact
deriving DecidableEq, Repr

/-- The fields of a `pdl.find_person` response read by the agent. -/
structure PdlFindResult where
  email : Option String
  first_name : String
  last_name : String
  title : String
  linkedin_url : String
deriving DecidableEq, Repr

/-- The fields of a `pdl.enrich_email` response read by the agent. -/
structure PdlEnrichResult where
  valid : Bool
  first_name : String
  last_name : String
  title : String
  linkedin_url : String
deriving DecidableEq, Repr

/-- The provider oracles.  `find_email` and `find_person` take the
domain and the target job title; `domain_search` takes the domain (the
`limit` argument only caps the response size, which the oracle already
reflects). -/
structure Providers where
  find_email : String → String → HunterFindResult
  domain_search : String → DomainSearchResult
  find_person : String → String → PdlFindResult
  enrich_email : String → PdlEnrichResult

/-- A lead after `hunter_enrich`: the original fields plus the
`hunter_*` keys. -/
structure HunterLead where
  base : Lead
  hunter_email : Option String
  hunter_name : String
  hunter_title : String
  hunter_confidence : Int
  hunter_verified : Bool
  company_name_verified : Option String
deriving DecidableEq, Repr

/-- An entry of the `failed_leads` collection: the failing record (at
whichever stage) plus the `error` string. -/
inductive FailedEntry where
  | ofLead (lead : Lead) (error : String)
  | ofHunter (hl : HunterLead) (error : String)
deriving DecidableEq, Repr

/-- A lead after `pdl_enrich`: the hunter-stage record plus the
`contact_*`, `confidence`, `sources` keys; `linkedin_url` and
`pdl_alternative` are only set on some paths. -/
structure ResolvedLead where
  hlead : HunterLead
  contact_email : String
  contact_name : String
  contact_title : String
  confidence : ℚ
  sources : List String
  linkedin_url : Option String
  pdl_alternative : Option String
deriving DecidableEq, Repr

/-- The per-lead body of `hunter_enrich`
(src/agents/enrichment_agent.py, lines 22-75). -/
def hunterStep (P : Providers) (target_title : String) (lead : Lead) :
    Sum HunterLead FailedEntry :=
  if lead.domain = "" then
    Sum.inr (FailedEntry.ofLead lead "No domain available")
  else
    let r := P.find_email lead.domain target_title
    if truthyS r.email = true then
      Sum.inl
        { base := lead, hunter_email := r.email,
          hunter_name := pyStrip (r.first_name ++ " " ++ r.last_name),
          hunter_title := r.position, hunter_confidence := r.confidence,
          hunter_verified := r.verified, company_name_verified := none }
    else
      let s := P.domain_search lead.domain
      match s.emails with
      | [] => Sum.inr (FailedEntry.ofLead lead "Hunter: No email found")
      | e0 :: _ =>
        let best :=
          if target_title ≠ "" then
            match find_title_match s.emails target_title with
            | some b => b
            | none => e0
          else e0
        Sum.inl
          { base := lead, hunter_email := best.email,
            hunter_name := pyStrip (best.first_name ++ " " ++ best.last_name),
            hunter_title := best.position.getD "",
            hunter_confidence := best.confidence, hunter_verified := false,
            company_name_verified := some (s.company.getD lead.company_name) }

/-- `hunter_enrich`: process the batch, separating enriched from
failed leads in arrival order. -/
def hunter_enrich (P : Providers) (target_title : String) :
    List Lead → List HunterLead × List FailedEntry
  | [] => ([], [])
  | l :: rest =>
    let r := hunter_enrich P target_title rest
    match hunterStep P target_title l with
    | Sum.inl h => (h :: r.1, r.2)
    | Sum.inr f => (r.1, f :: r.2)

/-- The per-lead body of `pdl_enrich`
(src/agents/enrichment_agent.py, lines 129-196). -/
def pdlStep (P : Providers) (target_title : String) (hl : HunterLead) :
    Sum ResolvedLead FailedEntry :=
  if truthyS hl.hunter_email = false then
    let p := P.find_person hl.base.domain target_title
    if truthyS p.email = true then
      Sum.inl
        { hlead := hl, contact_email := p.email.getD "",
          contact_name := pyStrip (p.first_name ++ " " ++ p.last_name),
          contact_title := p.title, confidence := mkRat 6 10, sources := ["pdl"],
          linkedin_url := some p.linkedin_url, pdl_alternative := none }
    else Sum.inr (FailedEntry.ofHunter hl "PDL: No email found")
  else
    let he := hl.hunter_email.getD ""
    let e := P.enrich_email he
    if e.valid then
      Sum.inl
        { hlead := hl, contact_email := he,
          contact_name := if hl.hunter_name ≠ "" then hl.hunter_name
            else pyStrip (e.first_name ++ " " ++ e.last_name),
          contact_title := if hl.hunter_title ≠ "" then hl.hunter_title else e.title,
          confidence := mkRat 9 10, sources := ["hunter", "pdl"],
          linkedin_url := some e.linkedin_url, pdl_alternative := none }
    else
      let p := P.find_person hl.base.domain target_title
      if truthyS p.email && (p.email == some he) then
        Sum.inl
          { hlead := hl, contact_email := he, contact_name := hl.hunter_name,
            contact_title := hl.hunter_title, confidence := mkRat 85 100,
            sources := ["hunter", "pdl"], linkedin_url := none, pdl_alternative := none }
      else if truthyS p.email = true then
        Sum.inl
          { hlead := hl, contact_email := he, contact_name := hl.hunter_name,
            contact_title := hl.hunter_title, confidence := mkRat 7 10,
            sources := ["hunter"], linkedin_url := none, pdl_alternative := p.email }
      else
        Sum.inl
          { hlead := hl, contact_email := he, contact_name := hl.hunter_name,
            contact_title := hl.hunter_title, confidence := mkRat 6 10,
            sources := ["hunter"], linkedin_url := none, pdl_alternative := none }

/-- `pdl_enrich`: cross-validate each hunter-stage lead. -/
def pdl_enrich (P : Providers) (target_title : String) :
    List HunterLead → List ResolvedLead × List FailedEntry
  | [] => ([], [])
  | hl :: rest =>
    let r := pdl_enrich P target_title rest
    match pdlStep P target_title hl with
    | Sum.inl res => (res :: r.1, r.2)
    | Sum.inr f => (r.1, f :: r.2)

/-- The result of `enrich_leads`.  The float `success_rate` stat
(`round(enriched/total*100, 1)`) is the only field not modelled. -/
structure EnrichResult where
  enriched_leads : List ResolvedLead
  failed_leads : List FailedEntry
  errors : List String
  total_input : Nat
  enriched : Nat
  failed : Nat
  high_confidence_count : Nat
deriving DecidableEq, Repr

/-- `enrich_leads` (src/agents/enrichment_agent.py, lines 217-262):
run the two stages and assemble the result.  Hunter-stage failures
precede PDL-stage failures, as the mutated `failed_leads` list has. -/
def enrich_leads (P : Providers) (target_job_title : String) (leads : List Lead) :
    EnrichResult :=
  let hr := hunter_enrich P target_job_title leads
  let pr := pdl_enrich P target_job_title hr.1
  { enriched_leads := pr.1,
    failed_leads := hr.2 ++ pr.2,
    errors := [],
    total_input := leads.length,
    enriched := pr.1.length,
    failed := (hr.2 ++ pr.2).length,
    high_confidence_count :=
      (pr.1.filter (fun l => decide (mkRat 8 10 ≤ l.confidence))).length }

/-- Every resolved lead arises from one hunter-stage lead through
`pdlStep`. -/
theorem mem_pdl_enrich (P : Providers) (tt : String) :
    ∀ (hls : List HunterLead) (r : ResolvedLead),
      r ∈ (pdl_enrich P tt hls).1 → ∃ hl ∈ hls, pdlStep P tt hl = Sum.inl r := by
  intro hls
  induction hls with
  | nil => intro r hr; simp [pdl_enrich] at hr
  | cons hl rest ih =>
    intro r hr
    rcases hstep : pdlStep P tt hl with res | f
    · have heq : (pdl_enrich P tt (hl :: rest)).1 = res :: (pdl_enrich P tt rest).1 := by
        simp only [pdl_enrich, hstep]
      rw [heq] at hr
      rcases List.mem_cons.1 hr with h | h
      · exact ⟨hl, List.mem_cons_self _ _, by rw [hstep, h]⟩
      · obtain ⟨hl', hm, hs⟩ := ih r h
        exact ⟨hl', List.mem_cons_of_mem _ hm, hs⟩
    · have heq : (pdl_enrich P tt (hl :: rest)).1 = (pdl_enrich P tt rest).1 := by
        simp only [pdl_enrich, hstep]
      rw [heq] at hr
      obtain ⟨hl', hm, hs⟩ := ih r hr
      exact ⟨hl', List.mem_cons_of_mem _ hm, hs⟩

/-- Case analysis of `pdlStep`: each resolving branch carries one of
the four tabled confidence values with its sources set. -/
theorem pdlStep_confidence (P : Providers) (tt : String) (hl : HunterLead)
    (r : ResolvedLead) (h : pdlStep P tt hl = Sum.inl r) :
    (r.confidence = mkRat 9 10 ∧ r.sources = ["hunter", "pdl"])
    ∨ (r.confidence = mkRat 85 100 ∧ r.sources = ["hunter", "pdl"])
    ∨ (r.confidence = mkRat 7 10 ∧ r.sources = ["hunter"])
    ∨ (r.confidence = mkRat 6 10 ∧ (r.sources = ["hunter"] ∨ r.sources = ["pdl"])) := by
  simp only [pdlStep] at h
  split at h
  · split at h
    · injection h with h'
      subst h'
      exact Or.inr (Or.inr (Or.inr ⟨rfl, Or.inr rfl⟩))
    · exact Sum.noConfusion h
  · split at h
    · injection h with h'
      subst h'
      exact Or.inl ⟨rfl, rfl⟩
    · split at h
      · injection h with h'
        subst h'
        exact Or.inr (Or.inl ⟨rfl, rfl⟩)
      · split at h
        · injection h with h'
          subst h'
          exact Or.inr (Or.inr (Or.inl ⟨rfl, rfl⟩))
        · injection h with h'
          subst h'
          exact Or.inr (Or.inr (Or.inr ⟨rfl, Or.inl rfl⟩))

/-- C1: every lead resolved by `pdl_enrich` carries confidence 0.9,
0.85, 0.7 or 0.6 — no other value is attainable — with
sources = [hunter, pdl] in the 0.9/0.85 cases and a single-provider
sources list in the 0.7/0.6 cases. -/
theorem C1_confidence_table : ∀ (P : Providers) (tt : String) (hls : List HunterLead)
    (r : ResolvedLead), r ∈ (pdl_enrich P tt hls).1 →
    (r.confidence = mkRat 9 10 ∧ r.sources = ["hunter", "pdl"])
    ∨ (r.confidence = mkRat 85 100 ∧ r.sources = ["hunter", "pdl"])
    ∨ (r.confidence = mkRat 7 10 ∧ r.sources = ["hunter"])
    ∨ (r.confidence = mkRat 6 10 ∧ (r.sources = ["hunter"] ∨ r.sources = ["pdl"])) := by
  intro P tt hls r hr
  obtain ⟨hl, _, hstep⟩ := mem_pdl_enrich P tt hls r hr
  exact pdlStep_confidence P tt hl r hstep

/-- A concrete research-stage lead. -/
def leadW : Lead :=
  { company_name := "Acme", domain := "acme.com", signal_type := "hiring",
    signal_detail := "Hiring SDR" }

/-- A hunter-stage lead holding a Hunter-found email. -/
def hlW : HunterLead :=
  { base := leadW, hunter_email := some "ann@acme.com", hunter_name := "Ann Ali",
    hunter_title := "VP Sales", hunter_confidence := 80, hunter_verified := false,
    company_name_verified := none }

/-- Providers for the witness run: Hunter finds nothing, PDL's
enrich-by-email confirms validity. -/
def PW : Providers :=
  { find_email := fun _ _ =>
      { email := none, first_name := "", last_name := "", position := "",
        confidence := 0, verified := false },
    domain_search := fun _ => { company := none, emails := [] },
    find_person := fun _ _ =>
      { email := none, first_name := "", last_name := "", title := "",
        linkedin_url := "" },
    enrich_email := fun _ =>
      { valid := true, first_name := "Ann", last_name := "Ali",
        title := "VP of Sales", linkedin_url := "li.in/ann" } }

/-- The resolved lead `pdl_enrich` produces for `hlW` under `PW`. -/
def rW : ResolvedLead :=
  { hlead := hlW, contact_email := "ann@acme.com", contact_name := "Ann Ali",
    contact_title := "VP Sales", confidence := mkRat 9 10,
    sources := ["hunter", "pdl"], linkedin_url := some "li.in/ann",
    pdl_alternative := none }

/-- C1, witness: the verified-email path resolves with confidence 0.9
and both sources, matching the table. -/
theorem C1_confidence_table_witness :
    rW ∈ (pdl_enrich PW "VP Sales" [hlW]).1
    ∧ ((rW.confidence = mkRat 9 10 ∧ rW.sources = ["hunter", "pdl"])
      ∨ (rW.confidence = mkRat 85 100 ∧ rW.sources = ["hunter", "pdl"])
      ∨ (rW.confidence = mkRat 7 10 ∧ rW.sources = ["hunter"])
      ∨ (rW.confidence = mkRat 6 10 ∧ (rW.sources = ["hunter"] ∨ rW.sources = ["pdl"]))) := by
  exact ⟨by decide, C1_confidence_table PW "VP Sales" [hlW] rW (by decide)⟩

/-- Providers on which provider #1 never yields an email while
provider #2's find-person endpoint would: Hunter's direct finder and
bulk domain search both come back empty, PDL knows a person. -/
def PCex : Providers :=
  { find_email := fun _ _ =>
      { email := none, first_name := "", last_name := "", position := "",
        confidence := 0, verified := false },
    domain_search := fun _ => { company := none, emails := [] },
    find_person := fun _ _ =>
      { email := some "alex@acme.com", first_name := "Alex", last_name := "Kim",
        title := "VP Sales", linkedin_url := "" },
    enrich_email := fun _ =>
      { valid := false, first_name := "", last_name := "", title := "",
        linkedin_url := "" } }

/-- C2, counterexample: the claim says that a lead for which Hunter
never yields an email is handed to PDL's find-person endpoint and, the
endpoint yielding an email, is Resolved with confidence 0.6 and
sources = [pdl].  Under `PCex` provider #2 would yield an email, yet
the pipeline resolves nothing: `hunter_enrich` routes the lead to the
failed-leads collection with "Hunter: No email found" and `pdl_enrich`
never sees it. -/
theorem C2_pdl_fallback_counterexample :
    (PCex.find_email "acme.com" "VP Sales").email = none
    ∧ (PCex.domain_search "acme.com").emails = []
    ∧ truthyS (PCex.find_person "acme.com" "VP Sales").email = true
    ∧ (enrich_leads PCex "VP Sales" [leadW]).enriched_leads = []
    ∧ (enrich_leads PCex "VP Sales" [leadW]).failed_leads
        = [FailedEntry.ofLead leadW "Hunter: No email found"] := by
  exact ⟨rfl, rfl, rfl, by decide, by decide⟩

/-- C2, amended: a lead for which provider #1 yields no email (neither
direct finder nor bulk domain search) is routed to the failed-leads
collection already at the Hunter stage, with reason "Hunter: No email
found", and provider #2 is not consulted for it.  The PDL-direct
branch (confidence 0.6, sources = [pdl], else failure with "PDL: No
email found") applies only to leads that reach the cross-validation
stage with an empty hunter email field. -/
theorem C2_hunter_failure_routing :
    (∀ (P : Providers) (tt : String) (lead : Lead),
      lead.domain ≠ "" →
      truthyS (P.find_email lead.domain tt).email = false →
      (P.domain_search lead.domain).emails = [] →
      hunterStep P tt lead = Sum.inr (FailedEntry.ofLead lead "Hunter: No email found"))
    ∧ (∀ (P : Providers) (tt : String) (hl : HunterLead),
        truthyS hl.hunter_email = false →
        (truthyS (P.find_person hl.base.domain tt).email = true →
          ∃ r, pdlStep P tt hl = Sum.inl r
            ∧ r.confidence = mkRat 6 10 ∧ r.sources = ["pdl"])
        ∧ (truthyS (P.find_person hl.base.domain tt).email = false →
            pdlStep P tt hl = Sum.inr (FailedEntry.ofHunter hl "PDL: No email found"))) := by
  constructor
  · intro P tt lead hdom hmail hds
    simp only [hunterStep]
    rw [if_neg hdom, if_neg (by simp [hmail]), hds]
  · intro P tt hl hfalse
    constructor
    · intro htrue
      have hstep : pdlStep P tt hl = Sum.inl
          { hlead := hl,
            contact_email := (P.find_person hl.base.domain tt).email.getD "",
            contact_name := pyStrip ((P.find_person hl.base.domain tt).first_name
              ++ " " ++ (P.find_person hl.base.domain tt).last_name),
            contact_title := (P.find_person hl.base.domain tt).title,
            confidence := mkRat 6 10, sources := ["pdl"],
            linkedin_url := some (P.find_person hl.base.domain tt).linkedin_url,
            pdl_alternative := none } := by
        simp only [pdlStep]
        rw [if_pos hfalse, if_pos htrue]
      exact ⟨_, hstep, rfl, rfl⟩
    · intro hfalse2
      simp only [pdlStep]
      rw [if_pos hfalse, if_neg (by simp [hfalse2])]

/-- A hunter-stage lead with no hunter email (the shape that triggers
the PDL-direct branch of `pdl_enrich`). -/
def hlNoEmail : HunterLead :=
  { base := leadW, hunter_email := none, hunter_name := "", hunter_title := "",
    hunter_confidence := 0, hunter_verified := false, company_name_verified := none }

/-- C2 (amended), witness: under `PCex` the Hunter-failed lead is
routed to failed-leads at the Hunter stage, and a lead reaching the
PDL stage without a hunter email resolves at confidence 0.6 with
sources = [pdl]. -/
theorem C2_hunter_failure_routing_witness :
    hunterStep PCex "VP Sales" leadW
      = Sum.inr (FailedEntry.ofLead leadW "Hunter: No email found")
    ∧ (∃ r, pdlStep PCex "VP Sales" hlNoEmail = Sum.inl r
        ∧ r.confidence = mkRat 6 10 ∧ r.sources = ["pdl"]) := by
  exact ⟨C2_hunter_failure_routing.1 PCex "VP Sales" leadW (by decide) (by decide) rfl,
    (C2_hunter_failure_routing.2 PCex "VP Sales" hlNoEmail (by decide)).1 (by decide)⟩

/-- Each input lead lands in exactly one of the two hunter-stage
output lists. -/
theorem hunter_enrich_len (P : Providers) (tt : String) : ∀ leads : List Lead,
    (hunter_enrich P tt leads).1.length + (hunter_enrich P tt leads).2.length
      = leads.length := by
  intro leads
  induction leads with
  | nil => rfl
  | cons a rest ih =>
    rcases hstep : hunterStep P tt a with hh | hf
    · have h1 : (hunter_enrich P tt (a :: rest)).1
          = hh :: (hunter_enrich P tt rest).1 := by
        simp only [hunter_enrich, hstep]
      have h2 : (hunter_enrich P tt (a :: rest)).2 = (hunter_enrich P tt rest).2 := by
        simp only [hunter_enrich, hstep]
      rw [h1, h2]
      simp only [List.length_cons]
      omega
    · have h1 : (hunter_enrich P tt (a :: rest)).1 = (hunter_enrich P tt rest).1 := by
        simp only [hunter_enrich, hstep]
      have h2 : (hunter_enrich P tt (a :: rest)).2
          = hf :: (hunter_enrich P tt rest).2 := by
        simp only [hunter_enrich, hstep]
      rw [h1, h2]
      simp only [List.length_cons]
      omega

/-- Each hunter-stage lead lands in exactly one of the two PDL-stage
output lists. -/
theorem pdl_enrich_len (P : Providers) (tt : String) : ∀ hls : List HunterLead,
    (pdl_enrich P tt hls).1.length + (pdl_enrich P tt hls).2.length = hls.length := by
  intro hls
  induction hls with
  | nil => rfl
  | cons hl rest ih =>
    rcases hstep : pdlStep P tt hl with res | f
    · have h1 : (pdl_enrich P tt (hl :: rest)).1
          = res :: (pdl_enrich P tt rest).1 := by
        simp only [pdl_enrich, hstep]
      have h2 : (pdl_enrich P tt (hl :: rest)).2 = (pdl_enrich P tt rest).2 := by
        simp only [pdl_enrich, hstep]
      rw [h1, h2]
      simp only [List.length_cons]
      omega
    · have h1 : (pdl_enrich P tt (hl :: rest)).1 = (pdl_enrich P tt rest).1 := by
        simp only [pdl_enrich, hstep]
      have h2 : (pdl_enrich P tt (hl :: rest)).2
          = f :: (pdl_enrich P tt rest).2 := by
        simp only [pdl_enrich, hstep]
      rw [h1, h2]
      simp only [List.length_cons]
      omega

/-- A lead arriving with an empty domain is recorded in the
hunter-stage failure list with the reason string "No domain
available". -/
theorem hunter_enrich_nodomain (P : Providers) (tt : String) :
    ∀ (leads : List Lead) (lead : Lead), lead ∈ leads → lead.domain = "" →
      FailedEntry.ofLead lead "No domain available" ∈ (hunter_enrich P tt leads).2 := by
  intro leads
  induction leads with
  | nil => intro lead h; simp at h
  | cons a rest ih =>
    intro lead hmem hdom
    rcases List.mem_cons.1 hmem with h | h
    · subst h
      have hstep : hunterStep P tt lead
          = Sum.inr (FailedEntry.ofLead lead "No domain available") := by
        unfold hunterStep
        rw [if_pos hdom]
      have h2 : (hunter_enrich P tt (lead :: rest)).2
          = FailedEntry.ofLead lead "No domain available"
            :: (hunter_enrich P tt rest).2 := by
        simp only [hunter_enrich, hstep]
      rw [h2]
      exact List.mem_cons_self _ _
    · rcases hstep : hunterStep P tt a with hh | hf
      · have h2 : (hunter_enrich P tt (a :: rest)).2 = (hunter_enrich P tt rest).2 := by
          simp only [hunter_enrich, hstep]
        rw [h2]
        exact ih lead h hdom
      · have h2 : (hunter_enrich P tt (a :: rest)).2
            = hf :: (hunter_enrich P tt rest).2 := by
          simp only [hunter_enrich, hstep]
        rw [h2]
        exact List.mem_cons_of_mem _ (ih lead h hdom)

/-- C8: the enrichment result always carries both the success and the
failure sequence, together accounting for every input lead (no
per-lead failure escapes the partition), and a candidate with no
domain is immediately routed to the failed-leads collection with its
descriptive reason string. -/
theorem C8_failure_partition : ∀ (P : Providers) (tt : String) (leads : List Lead),
    (enrich_leads P tt leads).enriched_leads.length
      + (enrich_leads P tt leads).failed_leads.length = leads.length
    ∧ (∀ lead ∈ leads, lead.domain = "" →
        FailedEntry.ofLead lead "No domain available"
          ∈ (enrich_leads P tt leads).failed_leads) := by
  intro P tt leads
  constructor
  · show (pdl_enrich P tt (hunter_enrich P tt leads).1).1.length
      + ((hunter_enrich P tt leads).2
        ++ (pdl_enrich P tt (hunter_enrich P tt leads).1).2).length = leads.length
    rw [List.length_append]
    have h1 := hunter_enrich_len P tt leads
    have h2 := pdl_enrich_len P tt (hunter_enrich P tt leads).1
    omega
  · intro lead hmem hdom
    show FailedEntry.ofLead lead "No domain available"
      ∈ (hunter_enrich P tt leads).2 ++ (pdl_enrich P tt (hunter_enrich P tt leads).1).2
    exact List.mem_append.2 (Or.inl (hunter_enrich_nodomain P tt leads lead hmem hdom))

/-- A candidate without a domain. -/
def noDomainLead : Lead :=
  { company_name := "Ghost", domain := "", signal_type := "hiring",
    signal_detail := "Hiring AE" }

/-- C8, witness: on a batch with one domain-less lead and one lead both
providers fail, every lead is accounted for and the domain-less lead
sits in the failed-leads collection with its reason string. -/
theorem C8_failure_partition_witness :
    (enrich_leads PW "VP Sales" [noDomainLead, leadW]).enriched_leads.length
      + (enrich_leads PW "VP Sales" [noDomainLead, leadW]).failed_leads.length = 2
    ∧ FailedEntry.ofLead noDomainLead "No domain available"
        ∈ (enrich_leads PW "VP Sales" [noDomainLead, leadW]).failed_leads := by
  have h := C8_failure_partition PW "VP Sales" [noDomainLead, leadW]
  exact ⟨h.1, h.2 noDomainLead (by decide) (by decide)⟩
